import Mathlib

/-!
# Verification of the wayland client engine (`src/wayland-client.c`)

Shallow embedding of the client-side wire codec, proxy/object model,
global registry, session state and event dispatch loop of
`src/wayland-client.c`, together with proofs of the specification's
testable properties.

Conventions of the embedding:
* machine words (`uint32_t`) are `Nat` with explicit `% 2^32` at the
  points where the C code truncates;
* byte buffers are `List Nat` (one entry per byte, little-endian word
  layout, matching the host order the code relies on);
* reads that the C code performs from uninitialized or out-of-range
  memory (undefined behaviour) are modelled as reading the byte `0`
  (`List.getD` with default `0`); writes the C code does not perform
  (the unwritten padding of the marshal scratch buffer) are modelled by
  an explicit `init : Nat → Nat` parameter giving the scratch buffer's
  prior contents, so that the dependence on uninitialized memory is
  visible in the model.
-/

/-- `DIV_ROUNDUP(n, 4)` from `wayland-util.h`, as used with
`sizeof(uint32_t) = 4` throughout the file. -/
def divRoundup (n : Nat) : Nat := (n + 3) / 4

/-- Little-endian byte encoding of the low 32 bits of `v`: storing a
`uint32_t` into the message buffer. -/
def encodeWord (v : Nat) : List Nat :=
  [v % 256, v / 256 % 256, v / 65536 % 256, v / 16777216 % 256]

/-- Little-endian read of one `uint32_t` from the front of a byte
buffer (reading past the end yields `0`, standing for indeterminate
memory). -/
def decodeWord (l : List Nat) : Nat :=
  l.getD 0 0 + 256 * l.getD 1 0 + 65536 * l.getD 2 0 + 16777216 * l.getD 3 0

/-- Read the `uint32_t` at byte offset `off`: the C expression `p[k]`
on a word pointer is `decodeWordAt buf (4*k)`. -/
def decodeWordAt (l : List Nat) (off : Nat) : Nat :=
  decodeWord (l.drop off)

/-- The argument-kind characters of a method signature string
(`wl_proxy_vmarshal` rejects any other character with `assert(0)`). -/
inductive SigChar
  | u | i | s | o | n
deriving DecidableEq, Repr

/-- One logical argument of a marshalled call: a 32-bit value for
`u`/`i`, a byte string for `s`, a proxy (represented by its object id)
for `o`/`n`. -/
inductive WlArg
  | word (v : Nat)
  | str (bytes : List Nat)
  | obj (id : Nat)
deriving DecidableEq, Repr

/-- An argument is of the shape the signature character makes
`wl_proxy_vmarshal` read via `va_arg`, with numeric values in
`uint32_t` range. -/
def argOk : SigChar → WlArg → Bool
  | .u, .word v => decide (v < 2 ^ 32)
  | .i, .word v => decide (v < 2 ^ 32)
  | .s, .str b => decide (b.length < 2 ^ 32)
  | .o, .obj v => decide (v < 2 ^ 32)
  | .n, .obj v => decide (v < 2 ^ 32)
  | _, _ => false

/-- The argument list matches the signature character for character. -/
def sigMatches : List SigChar → List WlArg → Bool
  | [], [] => true
  | c :: cs, a :: as => argOk c a && sigMatches cs as
  | _, _ => false

/-- Number of payload bytes the marshal loop of `wl_proxy_vmarshal`
emits for a signature/argument list: 4 for `u`/`i`/`o`/`n`, a length
word plus the string rounded up to a word boundary for `s`. -/
def payloadBytes : List SigChar → List WlArg → Nat
  | SigChar.s :: cs, WlArg.str b :: as => 4 + 4 * divRoundup b.length + payloadBytes cs as
  | _ :: cs, _ :: as => 4 + payloadBytes cs as
  | _, _ => 0

/-- The argument-encoding loop of `wl_proxy_vmarshal`
(`src/wayland-client.c:346-368`), producing the payload bytes that end
up at `&args[2]`.  `off` is the byte offset of the current write
position inside the `args` scratch buffer (the loop starts at
`p = &args[2]`, i.e. offset 8) and `init` gives the buffer's prior
contents: `memcpy(p, s, length)` copies only `length` bytes, so the
bytes padding a string field to the next word boundary are *not*
written and keep the value `init` had there.  A signature/argument
mismatch is `va_arg` undefined behaviour and yields `none`. -/
def marshalArgs (init : Nat → Nat) :
    List SigChar → List WlArg → Nat → Option (List Nat)
  | [], _, _ => some []
  | SigChar.u :: cs, WlArg.word v :: as, off =>
      (marshalArgs init cs as (off + 4)).map (encodeWord v ++ ·)
  | SigChar.i :: cs, WlArg.word v :: as, off =>
      (marshalArgs init cs as (off + 4)).map (encodeWord v ++ ·)
  | SigChar.s :: cs, WlArg.str b :: as, off =>
      let pad := (List.range (4 * divRoundup b.length - b.length)).map
        (fun k => init (off + 4 + b.length + k))
      (marshalArgs init cs as (off + 4 + 4 * divRoundup b.length)).map
        (fun rest => encodeWord b.length ++ b ++ pad ++ rest)
  | SigChar.o :: cs, WlArg.obj v :: as, off =>
      (marshalArgs init cs as (off + 4)).map (encodeWord v ++ ·)
  | SigChar.n :: cs, WlArg.obj v :: as, off =>
      (marshalArgs init cs as (off + 4)).map (encodeWord v ++ ·)
  | _, _, _ => none

/-- `wl_proxy_vmarshal` (`src/wayland-client.c:333-374`): encode the
arguments after the two header words, compute
`size = (p - args) * 4`, fill in `args[0] = target->id` and
`args[1] = opcode | (size << 16)` (all `uint32_t` arithmetic), and
return the `size` bytes handed to `wl_connection_write`.  The code has
no bound check against the 32-word `args` array (its own FIXME notes
this), so the result is produced for any size. -/
def wl_proxy_vmarshal (targetId opcode : Nat) (sig : List SigChar)
    (args : List WlArg) (init : Nat → Nat) : Option (List Nat) :=
  (marshalArgs init sig args 8).map (fun payload =>
    let size := 8 + payload.length
    encodeWord targetId ++
      encodeWord (Nat.lor opcode ((size <<< 16) % 2 ^ 32)) ++ payload)

/-- The fixed scratch capacity shared by the marshal buffer
`uint32_t args[32]` and the dispatch buffer `uint32_t p[32]`:
32 words = 128 bytes. -/
def scratchBytes : Nat := 128

/-- Modelled from the spec: the generic per-signature payload decoder
(`Demarshal`-and-decode, spec §4.1/§8.1).  The repository's generic
demarshal code lives outside `src/` (only `handle_global`, which
instantiates this layout for the GLOBAL event, is in
`src/wayland-client.c`).  For each signature character it consumes the
field `Marshal` emits: a word for `u`/`i`/`o`/`n`; for `s` a length
word, `length` string bytes, and the padding up to the next 4-byte
boundary (consumed, never part of any field). -/
def decodeArgs : List SigChar → List Nat → Option (List WlArg)
  | [], _ => some []
  | SigChar.u :: cs, b =>
      if 4 ≤ b.length then
        (decodeArgs cs (b.drop 4)).map (WlArg.word (decodeWord b) :: ·)
      else none
  | SigChar.i :: cs, b =>
      if 4 ≤ b.length then
        (decodeArgs cs (b.drop 4)).map (WlArg.word (decodeWord b) :: ·)
      else none
  | SigChar.s :: cs, b =>
      let len := decodeWord b
      if 4 + 4 * divRoundup len ≤ b.length then
        (decodeArgs cs (b.drop (4 + 4 * divRoundup len))).map
          (WlArg.str ((b.drop 4).take len) :: ·)
      else none
  | SigChar.o :: cs, b =>
      if 4 ≤ b.length then
        (decodeArgs cs (b.drop 4)).map (WlArg.obj (decodeWord b) :: ·)
      else none
  | SigChar.n :: cs, b =>
      if 4 ≤ b.length then
        (decodeArgs cs (b.drop 4)).map (WlArg.obj (decodeWord b) :: ·)
      else none

/-- `struct wl_global`: id, interface name (as bytes), version. -/
structure WlGlobal where
  id : Nat
  interface : List Nat
  version : Nat
deriving DecidableEq, Repr

/-- The observable state of `struct wl_display`: the id-allocator
counter `display->id`, the display's own proxy id
`display->proxy.id`, the global and visual lists (insertion order,
`wl_list_insert(list.prev, ·)` appends at the tail), whether an
application event handler is registered, and the connection's buffered
inbound bytes / written outbound bytes.  The intrusive `wl_list` nodes
are represented by the sequences they carry. -/
structure WlDisplay where
  id : Nat
  proxyId : Nat
  globals : List WlGlobal
  visuals : List Nat
  hasHandler : Bool
  inData : List Nat
  outData : List Nat
deriving DecidableEq, Repr

/-- The byte string `"visual"`. -/
def visualName : List Nat := [118, 105, 115, 117, 97, 108]

/-- The byte string `"display"`. -/
def displayName : List Nat := [100, 105, 115, 112, 108, 97, 121]

/-- Modelled from the spec: the GLOBAL opcode constant
(`WL_DISPLAY_GLOBAL`) comes from the protocol header, which is not
part of this repository's source; the spec fixes no numeric value and
none of the properties depend on it, so it is fixed arbitrarily. -/
def WL_DISPLAY_GLOBAL : Nat := 1

/-- Modelled from the spec: the `WL_SURFACE_DESTROY` opcode from the
protocol header (not in this repository's source); value arbitrary. -/
def WL_SURFACE_DESTROY : Nat := 0

/-- The scan loop of `wl_display_get_object_id`
(`src/wayland-client.c:194-210`): walk the global list in insertion
order, return the id of the first global whose interface name equals
the query, or `0` after the walk returns to the list head. -/
def lookupId : List WlGlobal → List Nat → Nat
  | [], _ => 0
  | g :: gs, nm => if g.interface = nm then g.id else lookupId gs nm

/-- `wl_display_get_object_id`. -/
def wl_display_get_object_id (d : WlDisplay) (nm : List Nat) : Nat :=
  lookupId d.globals nm

/-- `add_visual` (`src/wayland-client.c:99-111`): append a visual
carrying the global's id to the tail of the visual list. -/
def add_visual (d : WlDisplay) (gid : Nat) : WlDisplay :=
  { d with visuals := d.visuals ++ [gid] }

/-- `handle_global` (`src/wayland-client.c:224-248`), applied to the
payload words `p` (the C code receives `p + 2`, i.e. the message minus
its header): read `id = p[0]`, `length = p[1]`, copy `length` name
bytes from `&p[2]`, read `version = p[2 + DIV_ROUNDUP(length, 4)]`,
append the global to the tail of the global list, and if the name is
`"visual"` also `add_visual`. -/
def handle_global (d : WlDisplay) (p : List Nat) : WlDisplay :=
  let gid := decodeWordAt p 0
  let length := decodeWordAt p 4
  let name := (List.range length).map (fun k => p.getD (8 + k) 0)
  let version := decodeWordAt p (4 * (2 + divRoundup length))
  let d' := { d with globals := d.globals ++ [⟨gid, name, version⟩] }
  if name = visualName then add_visual d' gid else d'

/-- `handle_event` (`src/wayland-client.c:250-263`): copy `size` bytes
of the message out of the connection into the 32-word scratch buffer
`p` (no bound check — the copy length is whatever the header
declared), route `object == 1 && opcode == WL_DISPLAY_GLOBAL` to
`handle_global` with payload `p + 2`, and consume `size` bytes from
the connection.  (The application handler call for other messages has
no effect on this state; the dispatched messages are reported by the
iterate loop's trace below.) -/
def handle_event (d : WlDisplay) (object opcode size : Nat) : WlDisplay :=
  let p := (List.range size).map (fun k => d.inData.getD k 0)
  let d' := if object = 1 ∧ opcode = WL_DISPLAY_GLOBAL then
      handle_global d (p.drop 8)
    else d
  { d' with inData := d'.inData.drop size }

/-- One dispatched message, as handed to `handle_event`: header fields
plus the payload bytes of the scratch-buffer copy after the header. -/
structure WlEvent where
  object : Nat
  opcode : Nat
  size : Nat
  payload : List Nat
deriving DecidableEq, Repr

/-- The `while (len > 0)` loop of `wl_display_iterate`
(`src/wayland-client.c:265-291`): stop when fewer than 8 bytes are
buffered; peek the header, `object = p[0]`,
`opcode = p[1] & 0xffff`, `size = p[1] >> 16`; stop if fewer than
`size` bytes are buffered (partial message — nothing consumed);
otherwise `handle_event` and continue with `len - size`.  The trace of
processed messages is returned alongside the state.  `fuel` bounds the
recursion; the C loop does not terminate if a message declares
`size = 0`, which the model cuts off when the fuel runs out (for
messages of positive size, fuel `len + 1` is never exhausted). -/
def iterateLoop : Nat → WlDisplay → Nat → WlDisplay × List WlEvent
  | 0, d, _ => (d, [])
  | fuel + 1, d, len =>
    if len < 8 then (d, [])
    else
      let object := decodeWordAt d.inData 0
      let w1 := decodeWordAt d.inData 4
      let opcode := w1 % 65536
      let size := w1 / 65536
      if len < size then (d, [])
      else
        let ev : WlEvent := ⟨object, opcode, size, (d.inData.take size).drop 8⟩
        let r := iterateLoop fuel (handle_event d object opcode size) (len - size)
        (r.1, ev :: r.2)

/-- `wl_display_iterate`: `len = wl_connection_data(connection, mask)`
is the number of buffered inbound bytes, then the framing loop runs.
(The `len < 0` transport-error exit is outside this model; the byte
count of a buffered list is never negative.) -/
def wl_display_iterate (d : WlDisplay) : WlDisplay × List WlEvent :=
  iterateLoop (d.inData.length + 1) d d.inData.length

/-- `wl_display_allocate_id` (`src/wayland-client.c:303-307`):
`return display->id++` on a `uint32_t` — return the current counter,
then increment it with 32-bit wraparound. -/
def wl_display_allocate_id (d : WlDisplay) : Nat × WlDisplay :=
  (d.id, { d with id := (d.id + 1) % 2 ^ 32 })

/-- The results of `n` consecutive `wl_display_allocate_id` calls. -/
def allocSeq : Nat → WlDisplay → List Nat
  | 0, _ => []
  | n + 1, d =>
    (wl_display_allocate_id d).1 :: allocSeq n (wl_display_allocate_id d).2

/-- The display state after `n` consecutive `wl_display_allocate_id`
calls. -/
def allocState : Nat → WlDisplay → WlDisplay
  | 0, d => d
  | n + 1, d => allocState n (wl_display_allocate_id d).2

/-- The state-visible steps of `wl_display_create`
(`src/wayland-client.c:136-184`) after the socket connect succeeds:
zero the struct, read the 4-byte id seed from the server, initialize
the (empty) global and visual lists, set
`proxy.id = wl_display_get_object_id(display, "display")` — a lookup
performed on the still-empty registry — create the connection, and run
one `wl_display_iterate` pass over whatever the server has already
sent (`initialIn`). -/
def wl_display_create (seed : Nat) (initialIn : List Nat) : WlDisplay :=
  let d0 : WlDisplay :=
    { id := seed % 2 ^ 32, proxyId := 0, globals := [], visuals := [],
      hasHandler := false, inData := [], outData := [] }
  let d1 := { d0 with proxyId := wl_display_get_object_id d0 displayName }
  (wl_display_iterate { d1 with inData := initialIn }).1

/-- `wl_surface_destroy` (`src/wayland-client.c:410-414`):
`wl_proxy_marshal(&surface->proxy, WL_SURFACE_DESTROY)` — marshal a
message with the surface's id, the destroy opcode and an empty
signature, and write it to the connection.  It touches no other
display state (in particular not the id counter). -/
def wl_surface_destroy (surfaceId : Nat) (d : WlDisplay) : WlDisplay :=
  match wl_proxy_vmarshal surfaceId WL_SURFACE_DESTROY [] [] (fun _ => 0) with
  | some msg => { d with outData := d.outData ++ msg }
  | none => d

/-- One `next` step in the circular intrusive `wl_list` holding the
visuals.  Modelled from the spec: `wl_list` lives in
`wayland-util.{h,c}`, outside this repository's source; it is the
standard circular doubly-linked list (an empty list's head points to
itself, elements are kept in insertion order between head and head).
`none` is the head sentinel, `some k` the `k`-th visual node. -/
def listNext (vs : List Nat) : Option Nat → Option Nat
  | none => if vs.length = 0 then none else some 0
  | some k => if k + 1 < vs.length then some (k + 1) else none

/-- `container_of(node, struct wl_visual, link)` observed through the
visual's proxy id: a real visual node yields its id; the head sentinel
yields `none` — in C a garbage pointer into the `wl_display` struct,
not a valid visual and not a null "not found" result. -/
def visualDeref (vs : List Nat) : Option Nat → Option Nat
  | some k => some (vs.getD k 0)
  | none => none

/-- `wl_display_get_argb_visual` (`src/wayland-client.c:113-118`):
`container_of(display->visual_list.next, ...)` — one unchecked `next`
step from the head. -/
def wl_display_get_argb_visual (d : WlDisplay) : Option Nat :=
  visualDeref d.visuals (listNext d.visuals none)

/-- `wl_display_get_premultiplied_argb_visual`
(`src/wayland-client.c:120-125`):
`container_of(display->visual_list.next->next, ...)` — two unchecked
`next` steps. -/
def wl_display_get_premultiplied_argb_visual (d : WlDisplay) : Option Nat :=
  visualDeref d.visuals (listNext d.visuals (listNext d.visuals none))

/-- `wl_display_get_rgb_visual` (`src/wayland-client.c:127-134`):
`container_of(display->visual_list.next->next->next, ...)` — three
unchecked `next` steps. -/
def wl_display_get_rgb_visual (d : WlDisplay) : Option Nat :=
  visualDeref d.visuals
    (listNext d.visuals (listNext d.visuals (listNext d.visuals none)))

/-- The byte string `"other"`, used by the registry-order test
scenario. -/
def otherName : List Nat := [111, 116, 104, 101, 114]

/-- The wire encoding of a GLOBAL event payload as `handle_global`
expects it: id word, name-length word, name bytes padded with zeros to
a word boundary, version word. -/
def globalPayload (gid : Nat) (name : List Nat) (version : Nat) : List Nat :=
  encodeWord gid ++ encodeWord name.length ++ name ++
    List.replicate (4 * divRoundup name.length - name.length) 0 ++
    encodeWord version

/-- `wl_proxy_marshal` (`src/wayland-client.c:376-384`): marshal via
`wl_proxy_vmarshal` and hand the message to `wl_connection_write`,
which appends it to the connection's outbound bytes. -/
def wl_proxy_marshal (targetId opcode : Nat) (sig : List SigChar)
    (args : List WlArg) (init : Nat → Nat) (d : WlDisplay) : WlDisplay :=
  match wl_proxy_vmarshal targetId opcode sig args init with
  | some msg => { d with outData := d.outData ++ msg }
  | none => d

/-! ## Helper lemmas on the byte-level codec -/

lemma encodeWord_length (v : Nat) : (encodeWord v).length = 4 := rfl

lemma word_bytes (v : Nat) :
    v % 256 + 256 * (v / 256 % 256) + 65536 * (v / 65536 % 256)
      + 16777216 * (v / 16777216 % 256) = v % 2 ^ 32 := by
  have h1 : v % 2 ^ 32 = v % 256 + 256 * (v / 256 % 16777216) := by
    have e : (2 : Nat) ^ 32 = 256 * 16777216 := by norm_num
    rw [e, Nat.mod_mul]
  have h2 : v / 256 % 16777216 = v / 256 % 256 + 256 * (v / 65536 % 65536) := by
    have e : (16777216 : Nat) = 256 * 65536 := by norm_num
    rw [e, Nat.mod_mul, Nat.div_div_eq_div_mul]
  have h3 : v / 65536 % 65536 = v / 65536 % 256 + 256 * (v / 16777216 % 256) := by
    have e : (65536 : Nat) = 256 * 256 := by norm_num
    rw [e, Nat.mod_mul, Nat.div_div_eq_div_mul]
  rw [h1, h2, h3]; ring

lemma decodeWord_encodeWord (v : Nat) (rest : List Nat) :
    decodeWord (encodeWord v ++ rest) = v % 2 ^ 32 := by
  simp only [decodeWord, encodeWord, List.cons_append, List.nil_append,
    List.getD_cons_zero, List.getD_cons_succ]
  exact word_bytes v

lemma decodeWordAt_zero (l : List Nat) : decodeWordAt l 0 = decodeWord l := by
  simp [decodeWordAt]

lemma decodeWordAt_append (A rest : List Nat) (k : Nat) :
    decodeWordAt (A ++ rest) (A.length + k) = decodeWordAt rest k := by
  simp only [decodeWordAt]
  rw [← List.drop_drop, List.drop_left]

lemma lor_shift16 (a b : Nat) (h : a < 65536) :
    Nat.lor a (b * 65536) = 65536 * b + a := by
  have hb : a < 2 ^ 16 := by omega
  have key := Nat.mul_add_lt_is_or hb b
  calc Nat.lor a (b * 65536) = (2 ^ 16 * b) ||| a := by
        show a ||| b * 65536 = 2 ^ 16 * b ||| a
        rw [Nat.or_comm]
        norm_num [Nat.mul_comm]
    _ = 2 ^ 16 * b + a := key.symm

lemma le_four_divRoundup (n : Nat) : n ≤ 4 * divRoundup n := by
  simp only [divRoundup]; omega

lemma marshal_decode (init : Nat → Nat) :
    ∀ (sig : List SigChar) (args : List WlArg) (off : Nat),
      sigMatches sig args = true →
      ∃ p, marshalArgs init sig args off = some p ∧
        p.length = payloadBytes sig args ∧
        decodeArgs sig p = some args := by
  intro sig
  induction sig with
  | nil =>
    intro args off h
    cases args with
    | nil => exact ⟨[], rfl, rfl, rfl⟩
    | cons a as => simp [sigMatches] at h
  | cons c cs ih =>
    intro args off h
    cases args with
    | nil => simp [sigMatches] at h
    | cons a as =>
      simp only [sigMatches, Bool.and_eq_true] at h
      obtain ⟨ha, hrest⟩ := h
      cases c <;> cases a <;> simp only [argOk, decide_eq_true_eq] at ha
      all_goals try exact absurd ha (by decide)
      case u.word v =>
        obtain ⟨p', hm', hlen', hdec'⟩ := ih as (off + 4) hrest
        have hlen4 : 4 ≤ (encodeWord v ++ p').length := by
          simp [encodeWord_length]
        have hd4 : (encodeWord v ++ p').drop 4 = p' :=
          List.drop_left' (encodeWord_length v)
        refine ⟨encodeWord v ++ p', ?_, ?_, ?_⟩
        · simp [marshalArgs, hm']
        · simp [payloadBytes, hlen', encodeWord_length]
        · simp only [decodeArgs]
          rw [if_pos hlen4, hd4, hdec', decodeWord_encodeWord,
            Nat.mod_eq_of_lt ha]
          rfl
      case i.word v =>
        obtain ⟨p', hm', hlen', hdec'⟩ := ih as (off + 4) hrest
        have hlen4 : 4 ≤ (encodeWord v ++ p').length := by
          simp [encodeWord_length]
        have hd4 : (encodeWord v ++ p').drop 4 = p' :=
          List.drop_left' (encodeWord_length v)
        refine ⟨encodeWord v ++ p', ?_, ?_, ?_⟩
        · simp [marshalArgs, hm']
        · simp [payloadBytes, hlen', encodeWord_length]
        · simp only [decodeArgs]
          rw [if_pos hlen4, hd4, hdec', decodeWord_encodeWord,
            Nat.mod_eq_of_lt ha]
          rfl
      case o.obj v =>
        obtain ⟨p', hm', hlen', hdec'⟩ := ih as (off + 4) hrest
        have hlen4 : 4 ≤ (encodeWord v ++ p').length := by
          simp [encodeWord_length]
        have hd4 : (encodeWord v ++ p').drop 4 = p' :=
          List.drop_left' (encodeWord_length v)
        refine ⟨encodeWord v ++ p', ?_, ?_, ?_⟩
        · simp [marshalArgs, hm']
        · simp [payloadBytes, hlen', encodeWord_length]
        · simp only [decodeArgs]
          rw [if_pos hlen4, hd4, hdec', decodeWord_encodeWord,
            Nat.mod_eq_of_lt ha]
          rfl
      case n.obj v =>
        obtain ⟨p', hm', hlen', hdec'⟩ := ih as (off + 4) hrest
        have hlen4 : 4 ≤ (encodeWord v ++ p').length := by
          simp [encodeWord_length]
        have hd4 : (encodeWord v ++ p').drop 4 = p' :=
          List.drop_left' (encodeWord_length v)
        refine ⟨encodeWord v ++ p', ?_, ?_, ?_⟩
        · simp [marshalArgs, hm']
        · simp [payloadBytes, hlen', encodeWord_length]
        · simp only [decodeArgs]
          rw [if_pos hlen4, hd4, hdec', decodeWord_encodeWord,
            Nat.mod_eq_of_lt ha]
          rfl
      case s.str b =>
        obtain ⟨p', hm', hlen', hdec'⟩ :=
          ih as (off + 4 + 4 * divRoundup b.length) hrest
        have hLle : b.length ≤ 4 * divRoundup b.length :=
          le_four_divRoundup b.length
        set pad := (List.range (4 * divRoundup b.length - b.length)).map
          (fun k => init (off + 4 + b.length + k)) with hpad
        have hpadlen : pad.length = 4 * divRoundup b.length - b.length := by
          simp [hpad]
        refine ⟨encodeWord b.length ++ b ++ pad ++ p', ?_, ?_, ?_⟩
        · simp only [marshalArgs, hm']
          rw [← hpad]
          rfl
        · simp only [List.length_append, encodeWord_length, hpadlen, hlen',
            payloadBytes]
          omega
        · have hdva :
              decodeWord (encodeWord b.length ++ (b ++ (pad ++ p'))) = b.length := by
            rw [decodeWord_encodeWord]; exact Nat.mod_eq_of_lt ha
          have hlenp :
              (encodeWord b.length ++ (b ++ (pad ++ p'))).length
                = 4 + 4 * divRoundup b.length + p'.length := by
            simp only [List.length_append, encodeWord_length, hpadlen]
            omega
          have hcond :
              4 + 4 * divRoundup b.length
                ≤ (encodeWord b.length ++ (b ++ (pad ++ p'))).length := by
            rw [hlenp]; omega
          have hdrop4 :
              (encodeWord b.length ++ (b ++ (pad ++ p'))).drop 4
                = b ++ (pad ++ p') :=
            List.drop_left' (encodeWord_length b.length)
          have htake : (b ++ (pad ++ p')).take b.length = b :=
            List.take_left' rfl
          have hdropfull :
              (encodeWord b.length ++ (b ++ (pad ++ p'))).drop
                (4 + 4 * divRoundup b.length) = p' := by
            have hassoc :
                encodeWord b.length ++ (b ++ (pad ++ p'))
                  = (encodeWord b.length ++ b ++ pad) ++ p' := by
              simp [List.append_assoc]
            rw [hassoc]
            apply List.drop_left'
            simp only [List.length_append, encodeWord_length, hpadlen]
            omega
          simp only [decodeArgs, List.append_assoc]
          rw [hdva, if_pos hcond, hdropfull, hdrop4, htake, hdec']
          rfl

lemma vmarshal_some (targetId opcode : Nat) (sig : List SigChar)
    (args : List WlArg) (init : Nat → Nat) (payload : List Nat)
    (hm : marshalArgs init sig args 8 = some payload) :
    wl_proxy_vmarshal targetId opcode sig args init =
      some (encodeWord targetId ++
        encodeWord (Nat.lor opcode (((8 + payload.length) <<< 16) % 2 ^ 32)) ++
        payload) := by
  simp only [wl_proxy_vmarshal, hm, Option.map]

lemma headerWord_eq (opcode size : Nat) (ho : opcode < 65536)
    (hs : size < 65536) :
    Nat.lor opcode ((size <<< 16) % 2 ^ 32) = 65536 * size + opcode := by
  have hsh : size <<< 16 = size * 65536 := by
    rw [Nat.shiftLeft_eq]
  have h2 : (2 : Nat) ^ 32 = 4294967296 := by norm_num
  have hlt : size * 65536 < 2 ^ 32 := by omega
  rw [hsh, Nat.mod_eq_of_lt hlt, lor_shift16 opcode size ho]

/-! ## C1 — codec round-trip -/

/-- C1: for every sequence of arguments matching a method's signature
string (each `u`/`i` a 32-bit value, each `s` a byte string, each
`o`/`n` a proxy id), marshalling the call with `wl_proxy_vmarshal` and
then decoding the resulting message's header (as `wl_display_iterate`
unpacks it) and payload according to the same signature reproduces the
original arguments exactly — strings byte-for-byte, ids numerically —
with each string's padding consumed so that it never leaks into the
next decoded field (the exact tail equality covers every later
field). -/
theorem c1_codec_roundtrip (targetId opcode : Nat) (sig : List SigChar)
    (args : List WlArg) (init : Nat → Nat)
    (hm : sigMatches sig args = true)
    (ht : targetId < 2 ^ 32) (ho : opcode < 65536)
    (hs : 8 + payloadBytes sig args < 65536) :
    ∃ msg, wl_proxy_vmarshal targetId opcode sig args init = some msg ∧
      msg.length = 8 + payloadBytes sig args ∧
      decodeWordAt msg 0 = targetId ∧
      decodeWordAt msg 4 % 65536 = opcode ∧
      decodeWordAt msg 4 / 65536 = msg.length ∧
      decodeArgs sig (msg.drop 8) = some args := by
  obtain ⟨payload, hmar, hlen, hdec⟩ := marshal_decode init sig args 8 hm
  have hmsg := vmarshal_some targetId opcode sig args init payload hmar
  have hszlt : 8 + payload.length < 65536 := by omega
  have hw2eq : Nat.lor opcode (((8 + payload.length) <<< 16) % 2 ^ 32)
      = 65536 * (8 + payload.length) + opcode :=
    headerWord_eq opcode (8 + payload.length) ho hszlt
  have h232 : (2 : Nat) ^ 32 = 4294967296 := by norm_num
  have hw2lt : Nat.lor opcode (((8 + payload.length) <<< 16) % 2 ^ 32) < 2 ^ 32 := by
    rw [hw2eq]; omega
  have hassoc : encodeWord targetId ++
      encodeWord (Nat.lor opcode (((8 + payload.length) <<< 16) % 2 ^ 32)) ++
      payload
      = encodeWord targetId ++
        (encodeWord (Nat.lor opcode (((8 + payload.length) <<< 16) % 2 ^ 32)) ++
          payload) :=
    List.append_assoc _ _ _
  have hat4 : decodeWordAt (encodeWord targetId ++
      encodeWord (Nat.lor opcode (((8 + payload.length) <<< 16) % 2 ^ 32)) ++
      payload) 4
      = 65536 * (8 + payload.length) + opcode := by
    rw [decodeWordAt, hassoc, List.drop_left' (encodeWord_length targetId),
      decodeWord_encodeWord, Nat.mod_eq_of_lt hw2lt, hw2eq]
  have hmsglen : (encodeWord targetId ++
      encodeWord (Nat.lor opcode (((8 + payload.length) <<< 16) % 2 ^ 32)) ++
      payload).length = 8 + payload.length := by
    simp only [List.length_append, encodeWord_length]
  have hdrop8 : (encodeWord targetId ++
      encodeWord (Nat.lor opcode (((8 + payload.length) <<< 16) % 2 ^ 32)) ++
      payload).drop 8 = payload := by
    apply List.drop_left'
    simp only [List.length_append, encodeWord_length]
  refine ⟨_, hmsg, ?_, ?_, ?_, ?_, ?_⟩
  · rw [hmsglen, hlen]
  · rw [decodeWordAt_zero, hassoc, decodeWord_encodeWord, Nat.mod_eq_of_lt ht]
  · rw [hat4]; omega
  · rw [hat4, hmsglen]; omega
  · rw [hdrop8]; exact hdec

/-- Witness for C1 at a concrete input: signature `uso`, arguments
`(7, "hi", proxy 3)`, a scratch buffer previously filled with `170`. -/
theorem c1_codec_roundtrip_witness :
    sigMatches [SigChar.u, SigChar.s, SigChar.o]
        [WlArg.word 7, WlArg.str [104, 105], WlArg.obj 3] = true ∧
    (∃ msg, wl_proxy_vmarshal 2 4 [SigChar.u, SigChar.s, SigChar.o]
        [WlArg.word 7, WlArg.str [104, 105], WlArg.obj 3]
        (fun _ => 170) = some msg ∧
      msg.length = 8 + payloadBytes [SigChar.u, SigChar.s, SigChar.o]
        [WlArg.word 7, WlArg.str [104, 105], WlArg.obj 3] ∧
      decodeWordAt msg 0 = 2 ∧
      decodeWordAt msg 4 % 65536 = 4 ∧
      decodeWordAt msg 4 / 65536 = msg.length ∧
      decodeArgs [SigChar.u, SigChar.s, SigChar.o] (msg.drop 8) =
        some [WlArg.word 7, WlArg.str [104, 105], WlArg.obj 3]) :=
  ⟨by decide,
   c1_codec_roundtrip 2 4 [SigChar.u, SigChar.s, SigChar.o]
     [WlArg.word 7, WlArg.str [104, 105], WlArg.obj 3] (fun _ => 170)
     (by decide) (by decide) (by decide) (by decide)⟩

/-! ## State-preservation lemmas for the dispatch loop -/

lemma handle_global_id (d : WlDisplay) (p : List Nat) :
    (handle_global d p).id = d.id := by
  simp only [handle_global, add_visual]
  split <;> rfl

lemma handle_global_proxyId (d : WlDisplay) (p : List Nat) :
    (handle_global d p).proxyId = d.proxyId := by
  simp only [handle_global, add_visual]
  split <;> rfl

lemma handle_global_inData (d : WlDisplay) (p : List Nat) :
    (handle_global d p).inData = d.inData := by
  simp only [handle_global, add_visual]
  split <;> rfl

lemma handle_event_id (d : WlDisplay) (object opcode size : Nat) :
    (handle_event d object opcode size).id = d.id := by
  simp only [handle_event]
  split <;> simp [handle_global_id]

lemma handle_event_proxyId (d : WlDisplay) (object opcode size : Nat) :
    (handle_event d object opcode size).proxyId = d.proxyId := by
  simp only [handle_event]
  split <;> simp [handle_global_proxyId]

lemma handle_event_inData (d : WlDisplay) (object opcode size : Nat) :
    (handle_event d object opcode size).inData = d.inData.drop size := by
  simp only [handle_event]
  split <;> simp [handle_global_inData]

lemma iterateLoop_id (fuel : Nat) :
    ∀ (d : WlDisplay) (len : Nat), (iterateLoop fuel d len).1.id = d.id := by
  induction fuel with
  | zero => intro d len; rfl
  | succ f ih =>
    intro d len
    rw [iterateLoop]
    dsimp only
    split
    · rfl
    · split
      · rfl
      · simp only [ih, handle_event_id]

lemma iterateLoop_proxyId (fuel : Nat) :
    ∀ (d : WlDisplay) (len : Nat),
      (iterateLoop fuel d len).1.proxyId = d.proxyId := by
  induction fuel with
  | zero => intro d len; rfl
  | succ f ih =>
    intro d len
    rw [iterateLoop]
    dsimp only
    split
    · rfl
    · split
      · rfl
      · simp only [ih, handle_event_proxyId]

lemma iterateLoop_zero_len (fuel : Nat) (d : WlDisplay) :
    iterateLoop fuel d 0 = (d, []) := by
  cases fuel with
  | zero => rfl
  | succ f => rw [iterateLoop]; simp

/-! ## C8 — string encoding padding -/

/-- C8 counterexample: marshalling the one-byte string `"a"` under
signature `s` with a scratch buffer whose prior contents are the byte
`171` emits `171` in the three padding positions, not zero: the claim
that the emitted padding bytes are zero is false. -/
theorem c8_padding_counterexample :
    marshalArgs (fun _ => 171) [SigChar.s] [WlArg.str [97]] 8 =
      some [1, 0, 0, 0, 97, 171, 171, 171] ∧
    marshalArgs (fun _ => 171) [SigChar.s] [WlArg.str [97]] 8 ≠
      some [1, 0, 0, 0, 97, 0, 0, 0] := by decide

/-- C8 (amended): for every string argument marshalled under signature
character `s`, the bytes appended to the payload are a 4-byte length,
then exactly that many raw string bytes, then the field is advanced to
the next 4-byte boundary *without writing the padding bytes* — they
retain the scratch buffer's prior contents, so they are zero exactly
when the buffer's prior contents there were zero (`memcpy` copies only
`length` bytes; the padding is never stored). -/
theorem c8_string_padding (b : List Nat) (cs : List SigChar)
    (as : List WlArg) (init : Nat → Nat) (off : Nat) (rest : List Nat)
    (hrest : marshalArgs init cs as (off + 4 + 4 * divRoundup b.length)
      = some rest)
    (hz : ∀ x, init x = 0) :
    marshalArgs init (SigChar.s :: cs) (WlArg.str b :: as) off =
      some (encodeWord b.length ++ b ++
        List.replicate (4 * divRoundup b.length - b.length) 0 ++ rest) := by
  have hfun : (fun k => init (off + 4 + b.length + k)) = fun _ => (0 : Nat) :=
    funext fun k => hz _
  simp only [marshalArgs, hrest, Option.map_some', hfun, List.map_const',
    List.length_range]

/-- Witness for C8's amended statement: string `"a"`, zeroed scratch
buffer. -/
theorem c8_string_padding_witness :
    marshalArgs (fun _ => 0) [SigChar.s] [WlArg.str [97]] 8 =
      some [1, 0, 0, 0, 97, 0, 0, 0] := by
  have h := c8_string_padding [97] [] [] (fun _ => 0) 8 [] rfl (fun _ => rfl)
  simpa using h

/-! ## C2 — marshal overflow guard (code bug) -/

set_option maxRecDepth 4000 in
/-- C2: the claim says an over-size call is rejected before any bytes
reach the transport.  The code has no such guard (its FIXME at
`src/wayland-client.c:343` admits it): marshalling a single 121-byte
string yields a 136-byte message — 34 words, exceeding both the
128-byte message ceiling and the 32-word `args` scratch array — and
the message is written to the connection anyway. -/
theorem c2_oversize_marshal_still_writes :
    (wl_proxy_marshal 3 0 [SigChar.s] [WlArg.str (List.replicate 121 97)]
      (fun _ => 0)
      ⟨0, 0, [], [], false, [], []⟩).outData.length = 136 ∧
    scratchBytes < 136 := by decide

/-! ## C3 — dispatch copy bound (code bug) -/

set_option maxRecDepth 8000 in
/-- C3: the claim says the dispatch copy length is bounded against the
32-word scratch buffer and an over-size message is rejected as a fatal
protocol error.  The code checks nothing of the sort: a message whose
header declares `size = 132` (> 128 bytes) is copied in full into the
128-byte buffer `p` by `handle_event` and dispatched normally — no
error branch exists. -/
theorem c3_oversize_message_copied :
    (wl_display_iterate
      ⟨0, 0, [], [], true,
        encodeWord 2 ++ encodeWord (5 + 132 * 65536) ++ List.replicate 124 7,
        []⟩).2
      = [⟨2, 5, 132, List.replicate 124 7⟩] ∧
    scratchBytes < 132 ∧
    (wl_display_iterate
      ⟨0, 0, [], [], true,
        encodeWord 2 ++ encodeWord (5 + 132 * 65536) ++ List.replicate 124 7,
        []⟩).1.inData = [] := by decide

/-! ## Allocation-counter lemmas -/

lemma allocSeq_closed :
    ∀ (n : Nat) (d : WlDisplay), d.id < 2 ^ 32 →
      allocSeq n d = (List.range n).map (fun k => (d.id + k) % 2 ^ 32) := by
  intro n
  induction n with
  | zero => intro d _; rfl
  | succ m ih =>
    intro d hd
    have hlt : (d.id + 1) % 2 ^ 32 < 2 ^ 32 := Nat.mod_lt _ (by norm_num)
    rw [allocSeq, ih _ hlt, List.range_succ_eq_map]
    simp only [wl_display_allocate_id, List.map_cons, List.map_map,
      Nat.add_zero, Nat.mod_eq_of_lt hd]
    congr 1
    apply List.map_congr_left
    intro k _
    simp only [Function.comp_apply]
    rw [Nat.mod_add_mod]
    congr 1
    omega

lemma allocState_id :
    ∀ (n : Nat) (d : WlDisplay), d.id < 2 ^ 32 →
      (allocState n d).id = (d.id + n) % 2 ^ 32 := by
  intro n
  induction n with
  | zero =>
    intro d hd
    have h232 : (2 : Nat) ^ 32 = 4294967296 := by norm_num
    simp only [allocState, Nat.add_zero]
    omega
  | succ m ih =>
    intro d hd
    have hlt : (d.id + 1) % 2 ^ 32 < 2 ^ 32 := Nat.mod_lt _ (by norm_num)
    rw [allocState, ih _ hlt]
    simp only [wl_display_allocate_id]
    rw [Nat.mod_add_mod]
    congr 1
    omega

lemma wl_surface_destroy_id (sid : Nat) (d : WlDisplay) :
    (wl_surface_destroy sid d).id = d.id := rfl

lemma wl_display_create_id (seed : Nat) (initialIn : List Nat) :
    (wl_display_create seed initialIn).id = seed % 2 ^ 32 := by
  simp only [wl_display_create, wl_display_iterate]
  rw [iterateLoop_id]

/-! ## C4 — monotonic id allocation (corrected) -/

/-- C4 counterexample: the allocation counter is a 32-bit value
(`display->id++` on `uint32_t`), so on a fresh session seeded with
`2^32 - 1` the second `wl_display_allocate_id` call returns `0`, not
`2^32`: the claimed sequence `v, v+1, …` fails once the counter
wraps. -/
theorem c4_alloc_wrap_counterexample :
    allocSeq 2 (wl_display_create 4294967295 []) = [4294967295, 0] ∧
    allocSeq 2 (wl_display_create 4294967295 []) ≠ [4294967295, 4294967296] := by
  decide

/-- C4 (amended): for every fresh session whose counter is seeded with
`v` and every `N` with `v + N ≤ 2^32` (no 32-bit wraparound within the
`N` calls), the results of `N` consecutive `wl_display_allocate_id`
calls are exactly `v, v+1, …, v+N-1`, with no value repeated, and a
`wl_surface_destroy` of a proxy referencing an earlier id does not
change the sequence (allocation never decrements and never reuses an
id while the counter has not wrapped). -/
theorem c4_monotonic_alloc (v n sid : Nat) (hv : v < 2 ^ 32)
    (hn : v + n ≤ 2 ^ 32) :
    allocSeq n (wl_display_create v []) = List.range' v n ∧
    (allocSeq n (wl_display_create v [])).Nodup ∧
    allocSeq n (wl_surface_destroy sid (wl_display_create v [])) =
      allocSeq n (wl_display_create v []) := by
  have h232 : (2 : Nat) ^ 32 = 4294967296 := by norm_num
  have hid : (wl_display_create v []).id = v := by
    rw [wl_display_create_id, Nat.mod_eq_of_lt hv]
  have hid2 : (wl_surface_destroy sid (wl_display_create v [])).id = v := by
    rw [wl_surface_destroy_id, hid]
  have h1 : allocSeq n (wl_display_create v []) = List.range' v n := by
    rw [allocSeq_closed n _ (by rw [hid]; exact hv), hid,
      List.range'_eq_map_range]
    apply List.map_congr_left
    intro k hk
    rw [List.mem_range] at hk
    exact Nat.mod_eq_of_lt (by omega)
  refine ⟨h1, ?_, ?_⟩
  · rw [h1]; exact List.nodup_range' v n
  · rw [allocSeq_closed n _ (by rw [hid2]; exact hv), hid2,
      allocSeq_closed n _ (by rw [hid]; exact hv), hid]

/-- Witness for C4's amended statement: seed 10, three allocations,
destroying a proxy with id 7 in between has no effect. -/
theorem c4_monotonic_alloc_witness :
    allocSeq 3 (wl_display_create 10 []) = List.range' 10 3 ∧
    (allocSeq 3 (wl_display_create 10 [])).Nodup ∧
    allocSeq 3 (wl_surface_destroy 7 (wl_display_create 10 [])) =
      allocSeq 3 (wl_display_create 10 []) :=
  c4_monotonic_alloc 10 3 7 (by decide) (by decide)

/-! ## C10 — the id counter wraps modulo 2^32 -/

/-- C10: the session's id counter is 32-bit and
`wl_display_allocate_id` increments it modulo `2^32`: after `k`
allocations the counter holds `(v + k) % 2^32`, after exactly `2^32`
allocations it is back at its seed, and the `(2^32 + k)`-th allocation
returns the same id as the `k`-th — previously issued ids are produced
again, so the no-reuse guarantee only holds for fewer than `2^32`
allocations in one session. -/
theorem c10_alloc_wraps (d : WlDisplay) (k : Nat) (hd : d.id < 2 ^ 32) :
    (allocState k d).id = (d.id + k) % 2 ^ 32 ∧
    (allocState (2 ^ 32) d).id = d.id ∧
    (allocState (2 ^ 32 + k) d).id = (allocState k d).id := by
  have h232 : (2 : Nat) ^ 32 = 4294967296 := by norm_num
  refine ⟨allocState_id k d hd, ?_, ?_⟩
  · rw [allocState_id _ _ hd]; omega
  · rw [allocState_id _ _ hd, allocState_id _ _ hd]; omega

/-- Witness for C10 at counter value 5 and offset 3. -/
theorem c10_alloc_wraps_witness :
    (allocState 3 (⟨5, 0, [], [], false, [], []⟩ : WlDisplay)).id
      = (5 + 3) % 2 ^ 32 ∧
    (allocState (2 ^ 32) (⟨5, 0, [], [], false, [], []⟩ : WlDisplay)).id = 5 ∧
    (allocState (2 ^ 32 + 3) (⟨5, 0, [], [], false, [], []⟩ : WlDisplay)).id
      = (allocState 3 (⟨5, 0, [], [], false, [], []⟩ : WlDisplay)).id :=
  c10_alloc_wraps ⟨5, 0, [], [], false, [], []⟩ 3 (by decide)

/-! ## C5 — partial-message stall -/

lemma drop_append_of_le (k : Nat) :
    ∀ (l e : List Nat), k ≤ l.length → (l ++ e).drop k = l.drop k ++ e := by
  induction k with
  | zero => intro l e _; simp
  | succ m ih =>
    intro l e h
    cases l with
    | nil => simp at h
    | cons a l' =>
      simp only [List.cons_append, List.drop_succ_cons]
      exact ih l' e (by simpa using h)

lemma decodeWord_prefix (A e : List Nat) (h : 4 ≤ A.length) :
    decodeWord (A ++ e) = decodeWord A := by
  simp only [decodeWord]
  rw [List.getD_append _ _ _ _ (by omega), List.getD_append _ _ _ _ (by omega),
    List.getD_append _ _ _ _ (by omega), List.getD_append _ _ _ _ (by omega)]

lemma decodeWordAt_prefix (l e : List Nat) (k : Nat) (h : k + 4 ≤ l.length) :
    decodeWordAt (l ++ e) k = decodeWordAt l k := by
  simp only [decodeWordAt]
  rw [drop_append_of_le k l e (by omega)]
  exact decodeWord_prefix _ _ (by simp [List.length_drop]; omega)

/-- C5: for every dispatch pass whose buffered input starts with a
complete 8-byte header declaring a message size larger than the bytes
currently available, the pass dispatches nothing and leaves the
connection's buffered bytes (the consumed-cursor) untouched; a later
pass run once the missing bytes have arrived dispatches that message
exactly once and consumes it. -/
theorem c5_partial_message_stall (d : WlDisplay) (extra : List Nat)
    (h8 : 8 ≤ d.inData.length)
    (hstall : d.inData.length < decodeWordAt d.inData 4 / 65536)
    (hcomplete : d.inData.length + extra.length
      = decodeWordAt d.inData 4 / 65536) :
    wl_display_iterate d = (d, []) ∧
    (wl_display_iterate { d with inData := d.inData ++ extra }).2
      = [⟨decodeWordAt d.inData 0, decodeWordAt d.inData 4 % 65536,
          decodeWordAt d.inData 4 / 65536,
          ((d.inData ++ extra).take (decodeWordAt d.inData 4 / 65536)).drop 8⟩] ∧
    (wl_display_iterate { d with inData := d.inData ++ extra }).1.inData
      = [] := by
  have h0 : decodeWordAt (d.inData ++ extra) 0 = decodeWordAt d.inData 0 :=
    decodeWordAt_prefix _ _ _ (by omega)
  have h4 : decodeWordAt (d.inData ++ extra) 4 = decodeWordAt d.inData 4 :=
    decodeWordAt_prefix _ _ _ (by omega)
  have hDlen : (d.inData ++ extra).length = decodeWordAt d.inData 4 / 65536 := by
    rw [List.length_append, hcomplete]
  have hiter : wl_display_iterate { d with inData := d.inData ++ extra }
      = (handle_event { d with inData := d.inData ++ extra }
          (decodeWordAt (d.inData ++ extra) 0)
          (decodeWordAt (d.inData ++ extra) 4 % 65536)
          (decodeWordAt (d.inData ++ extra) 4 / 65536),
         [⟨decodeWordAt (d.inData ++ extra) 0,
           decodeWordAt (d.inData ++ extra) 4 % 65536,
           decodeWordAt (d.inData ++ extra) 4 / 65536,
           ((d.inData ++ extra).take
             (decodeWordAt (d.inData ++ extra) 4 / 65536)).drop 8⟩]) := by
    rw [wl_display_iterate, iterateLoop]
    dsimp only
    rw [if_neg (by omega), if_neg (by rw [h4, hDlen]; omega)]
    rw [show (d.inData ++ extra).length
      - decodeWordAt (d.inData ++ extra) 4 / 65536 = 0 by rw [h4, hDlen]; omega]
    rw [iterateLoop_zero_len]
  refine ⟨?_, ?_, ?_⟩
  · rw [wl_display_iterate, iterateLoop]
    dsimp only
    rw [if_neg (by omega), if_pos hstall]
  · rw [hiter]
    simp only [h0, h4]
  · rw [hiter]
    dsimp only
    rw [handle_event_inData]
    dsimp only
    rw [h4, ← hDlen, List.drop_length]

/-- Witness for C5: a 12-byte buffer holding a header that declares
`size = 16` (object 2, opcode 5) plus 4 payload bytes stalls; after
the 4 missing bytes arrive the message is dispatched exactly once. -/
theorem c5_partial_message_stall_witness :
    wl_display_iterate
      ⟨0, 0, [], [], true,
        encodeWord 2 ++ encodeWord (5 + 16 * 65536) ++ [1, 2, 3, 4], []⟩
      = (⟨0, 0, [], [], true,
          encodeWord 2 ++ encodeWord (5 + 16 * 65536) ++ [1, 2, 3, 4], []⟩,
         []) ∧
    (wl_display_iterate
      { (⟨0, 0, [], [], true,
          encodeWord 2 ++ encodeWord (5 + 16 * 65536) ++ [1, 2, 3, 4], []⟩ :
            WlDisplay) with
        inData := (encodeWord 2 ++ encodeWord (5 + 16 * 65536) ++ [1, 2, 3, 4])
          ++ [5, 6, 7, 8] }).2
      = [⟨decodeWordAt (encodeWord 2 ++ encodeWord (5 + 16 * 65536) ++
            [1, 2, 3, 4]) 0,
          decodeWordAt (encodeWord 2 ++ encodeWord (5 + 16 * 65536) ++
            [1, 2, 3, 4]) 4 % 65536,
          decodeWordAt (encodeWord 2 ++ encodeWord (5 + 16 * 65536) ++
            [1, 2, 3, 4]) 4 / 65536,
          (((encodeWord 2 ++ encodeWord (5 + 16 * 65536) ++ [1, 2, 3, 4])
              ++ [5, 6, 7, 8]).take
            (decodeWordAt (encodeWord 2 ++ encodeWord (5 + 16 * 65536) ++
              [1, 2, 3, 4]) 4 / 65536)).drop 8⟩] ∧
    (wl_display_iterate
      { (⟨0, 0, [], [], true,
          encodeWord 2 ++ encodeWord (5 + 16 * 65536) ++ [1, 2, 3, 4], []⟩ :
            WlDisplay) with
        inData := (encodeWord 2 ++ encodeWord (5 + 16 * 65536) ++ [1, 2, 3, 4])
          ++ [5, 6, 7, 8] }).1.inData = [] :=
  c5_partial_message_stall
    ⟨0, 0, [], [], true,
      encodeWord 2 ++ encodeWord (5 + 16 * 65536) ++ [1, 2, 3, 4], []⟩
    [5, 6, 7, 8] (by decide) (by decide) (by decide)

/-! ## C6 — registry and visual insertion order -/

lemma range_map_getD (l : List Nat) :
    (List.range l.length).map (fun k => l.getD k 0) = l := by
  apply List.ext_getElem
  · simp
  · intro i h1 h2
    simp [List.getD_eq_getElem?_getD, List.getElem?_eq_getElem h2]

lemma handle_global_payload (d : WlDisplay) (gid : Nat) (name : List Nat)
    (ver : Nat) (hg : gid < 2 ^ 32) (hn : name.length < 2 ^ 32)
    (hv : ver < 2 ^ 32) :
    handle_global d (globalPayload gid name ver) =
      if name = visualName then
        { d with globals := d.globals ++ [⟨gid, name, ver⟩],
                 visuals := d.visuals ++ [gid] }
      else { d with globals := d.globals ++ [⟨gid, name, ver⟩] } := by
  have hassoc : globalPayload gid name ver
      = encodeWord gid ++ (encodeWord name.length ++ (name ++
          (List.replicate (4 * divRoundup name.length - name.length) 0 ++
            encodeWord ver))) := by
    simp [globalPayload, List.append_assoc]
  have ha : decodeWordAt (globalPayload gid name ver) 0 = gid := by
    rw [decodeWordAt_zero, hassoc, decodeWord_encodeWord, Nat.mod_eq_of_lt hg]
  have hb : decodeWordAt (globalPayload gid name ver) 4 = name.length := by
    rw [decodeWordAt, hassoc, List.drop_left' (encodeWord_length gid),
      decodeWord_encodeWord, Nat.mod_eq_of_lt hn]
  have hc : ∀ k, k < name.length →
      (globalPayload gid name ver).getD (8 + k) 0 = name.getD k 0 := by
    intro k hk
    have hfront : globalPayload gid name ver
        = (encodeWord gid ++ encodeWord name.length) ++
          (name ++ (List.replicate (4 * divRoundup name.length - name.length) 0
            ++ encodeWord ver)) := by
      simp [globalPayload, List.append_assoc]
    rw [hfront, List.getD_append_right _ _ _ _ (by simp [encodeWord_length])]
    simp only [List.length_append, encodeWord_length]
    rw [show 8 + k - (4 + 4) = k by omega]
    exact List.getD_append _ _ _ _ hk
  have hname : (List.range name.length).map
      (fun k => (globalPayload gid name ver).getD (8 + k) 0) = name := by
    have step : (List.range name.length).map
        (fun k => (globalPayload gid name ver).getD (8 + k) 0)
        = (List.range name.length).map (fun k => name.getD k 0) := by
      apply List.map_congr_left
      intro k hk
      exact hc k (List.mem_range.mp hk)
    rw [step, range_map_getD]
  have hver : decodeWordAt (globalPayload gid name ver)
      (4 * (2 + divRoundup name.length)) = ver := by
    have hoff : 4 * (2 + divRoundup name.length)
        = 8 + 4 * divRoundup name.length := by ring
    have hback : globalPayload gid name ver
        = (encodeWord gid ++ encodeWord name.length ++ name ++
            List.replicate (4 * divRoundup name.length - name.length) 0) ++
          encodeWord ver := by
      simp [globalPayload, List.append_assoc]
    have hfrontlen : (encodeWord gid ++ encodeWord name.length ++ name ++
        List.replicate (4 * divRoundup name.length - name.length) 0).length
        = 8 + 4 * divRoundup name.length := by
      have := le_four_divRoundup name.length
      simp only [List.length_append, encodeWord_length, List.length_replicate]
      omega
    rw [hoff, decodeWordAt, hback, List.drop_left' hfrontlen,
      ← List.append_nil (encodeWord ver), decodeWord_encodeWord,
      Nat.mod_eq_of_lt hv]
  simp only [handle_global, ha, hb, hname, hver, add_visual]

/-- C6: in every session whose registry starts empty, recording
globals named `["visual", "other", "visual", "visual"]` in that order
(via GLOBAL events decoded by `handle_global`) makes the three visual
accessors resolve to the ids of the 1st, 3rd and 4th registered global
respectively, and looking up the interface name `"other"` returns the
id of the 2nd registered global (linear scan in insertion order, first
match wins). -/
theorem c6_registry_visual_order (d : WlDisplay)
    (i1 i2 i3 i4 v1 v2 v3 v4 : Nat)
    (hgl : d.globals = []) (hvl : d.visuals = [])
    (h1 : i1 < 2 ^ 32) (h2 : i2 < 2 ^ 32) (h3 : i3 < 2 ^ 32)
    (h4 : i4 < 2 ^ 32) (hv1 : v1 < 2 ^ 32) (hv2 : v2 < 2 ^ 32)
    (hv3 : v3 < 2 ^ 32) (hv4 : v4 < 2 ^ 32) :
    wl_display_get_argb_visual
      (handle_global (handle_global (handle_global (handle_global d
        (globalPayload i1 visualName v1)) (globalPayload i2 otherName v2))
        (globalPayload i3 visualName v3)) (globalPayload i4 visualName v4))
      = some i1 ∧
    wl_display_get_premultiplied_argb_visual
      (handle_global (handle_global (handle_global (handle_global d
        (globalPayload i1 visualName v1)) (globalPayload i2 otherName v2))
        (globalPayload i3 visualName v3)) (globalPayload i4 visualName v4))
      = some i3 ∧
    wl_display_get_rgb_visual
      (handle_global (handle_global (handle_global (handle_global d
        (globalPayload i1 visualName v1)) (globalPayload i2 otherName v2))
        (globalPayload i3 visualName v3)) (globalPayload i4 visualName v4))
      = some i4 ∧
    wl_display_get_object_id
      (handle_global (handle_global (handle_global (handle_global d
        (globalPayload i1 visualName v1)) (globalPayload i2 otherName v2))
        (globalPayload i3 visualName v3)) (globalPayload i4 visualName v4))
      otherName = i2 := by
  have e1 : handle_global d (globalPayload i1 visualName v1)
      = { d with globals := [⟨i1, visualName, v1⟩], visuals := [i1] } := by
    rw [handle_global_payload d i1 visualName v1 h1 (by decide) hv1,
      if_pos rfl, hgl, hvl]
    rfl
  have e2 : handle_global { d with
        globals := [⟨i1, visualName, v1⟩], visuals := [i1] }
      (globalPayload i2 otherName v2)
      = { d with globals := [⟨i1, visualName, v1⟩, ⟨i2, otherName, v2⟩],
                 visuals := [i1] } := by
    rw [handle_global_payload _ i2 otherName v2 h2 (by decide) hv2,
      if_neg (by decide)]
    rfl
  have e3 : handle_global { d with
        globals := [⟨i1, visualName, v1⟩, ⟨i2, otherName, v2⟩],
        visuals := [i1] }
      (globalPayload i3 visualName v3)
      = { d with globals := [⟨i1, visualName, v1⟩, ⟨i2, otherName, v2⟩,
                   ⟨i3, visualName, v3⟩],
                 visuals := [i1, i3] } := by
    rw [handle_global_payload _ i3 visualName v3 h3 (by decide) hv3,
      if_pos rfl]
    rfl
  have e4 : handle_global { d with
        globals := [⟨i1, visualName, v1⟩, ⟨i2, otherName, v2⟩,
          ⟨i3, visualName, v3⟩],
        visuals := [i1, i3] }
      (globalPayload i4 visualName v4)
      = { d with globals := [⟨i1, visualName, v1⟩, ⟨i2, otherName, v2⟩,
                   ⟨i3, visualName, v3⟩, ⟨i4, visualName, v4⟩],
                 visuals := [i1, i3, i4] } := by
    rw [handle_global_payload _ i4 visualName v4 h4 (by decide) hv4,
      if_pos rfl]
    rfl
  rw [e1, e2, e3, e4]
  refine ⟨?_, ?_, ?_, ?_⟩
  · simp [wl_display_get_argb_visual, listNext, visualDeref]
  · simp [wl_display_get_premultiplied_argb_visual, listNext, visualDeref]
  · simp [wl_display_get_rgb_visual, listNext, visualDeref]
  · simp only [wl_display_get_object_id, lookupId]
    rw [if_neg (by decide)]
    simp

/-- Witness for C6: fresh display, globals with ids 10, 20, 30, 40 and
versions 1. -/
theorem c6_registry_visual_order_witness :
    wl_display_get_argb_visual
      (handle_global (handle_global (handle_global (handle_global
        ⟨0, 0, [], [], false, [], []⟩
        (globalPayload 10 visualName 1)) (globalPayload 20 otherName 1))
        (globalPayload 30 visualName 1)) (globalPayload 40 visualName 1))
      = some 10 ∧
    wl_display_get_premultiplied_argb_visual
      (handle_global (handle_global (handle_global (handle_global
        ⟨0, 0, [], [], false, [], []⟩
        (globalPayload 10 visualName 1)) (globalPayload 20 otherName 1))
        (globalPayload 30 visualName 1)) (globalPayload 40 visualName 1))
      = some 30 ∧
    wl_display_get_rgb_visual
      (handle_global (handle_global (handle_global (handle_global
        ⟨0, 0, [], [], false, [], []⟩
        (globalPayload 10 visualName 1)) (globalPayload 20 otherName 1))
        (globalPayload 30 visualName 1)) (globalPayload 40 visualName 1))
      = some 40 ∧
    wl_display_get_object_id
      (handle_global (handle_global (handle_global (handle_global
        ⟨0, 0, [], [], false, [], []⟩
        (globalPayload 10 visualName 1)) (globalPayload 20 otherName 1))
        (globalPayload 30 visualName 1)) (globalPayload 40 visualName 1))
      otherName = 20 :=
  c6_registry_visual_order ⟨0, 0, [], [], false, [], []⟩ 10 20 30 40 1 1 1 1
    rfl rfl (by decide) (by decide) (by decide) (by decide) (by decide)
    (by decide) (by decide) (by decide)

/-! ## C7 — lookup misses (corrected) -/

lemma lookupId_miss (gs : List WlGlobal) (nm : List Nat)
    (h : ∀ g ∈ gs, g.interface ≠ nm) : lookupId gs nm = 0 := by
  induction gs with
  | nil => rfl
  | cons g rest ih =>
    rw [lookupId, if_neg (h g (by simp))]
    exact ih (fun g' hg' => h g' (by simp [hg']))

/-- C7 counterexample: with exactly one visual registered (fewer than
three), `wl_display_get_rgb_visual` does not report "not found": the
triple `next`-traversal wraps around the circular visual list and
returns the first (and only) visual — an ordinary visual value, for
the wrong position. -/
theorem c7_visual_lookup_counterexample :
    wl_display_get_rgb_visual ⟨0, 0, [], [42], false, [], []⟩ = some 42 ∧
    wl_display_get_rgb_visual ⟨0, 0, [], [42], false, [], []⟩ ≠ none ∧
    ([42] : List Nat).length < 3 := by decide

/-- C7 (amended): looking up an interface name with no matching global
returns the explicit not-found sentinel `0` (before and after any
number of unrelated registrations — the statement quantifies over all
session states with no matching global).  The visual accessors return
the k-th visual when at least `k` visuals are registered, but with
fewer than `k` they perform an *unchecked* traversal of the circular
visual list rather than reporting not-found: with no visuals the
accessor yields the list head (`container_of` garbage, `none` here),
and with exactly one visual the third accessor wraps around and yields
that first visual. -/
theorem c7_lookup_miss (d : WlDisplay) (nm : List Nat)
    (hmiss : ∀ g ∈ d.globals, g.interface ≠ nm) :
    wl_display_get_object_id d nm = 0 ∧
    (1 ≤ d.visuals.length →
      wl_display_get_argb_visual d = some (d.visuals.getD 0 0)) ∧
    (2 ≤ d.visuals.length →
      wl_display_get_premultiplied_argb_visual d = some (d.visuals.getD 1 0)) ∧
    (3 ≤ d.visuals.length →
      wl_display_get_rgb_visual d = some (d.visuals.getD 2 0)) ∧
    (d.visuals.length = 0 → wl_display_get_argb_visual d = none) ∧
    (d.visuals.length = 1 →
      wl_display_get_rgb_visual d = some (d.visuals.getD 0 0)) := by
  refine ⟨lookupId_miss d.globals nm hmiss, ?_, ?_, ?_, ?_, ?_⟩
  · intro hl
    have s1 : listNext d.visuals none = some 0 := by
      simp only [listNext]; rw [if_neg (by omega)]
    simp only [wl_display_get_argb_visual, s1]
    rfl
  · intro hl
    have s1 : listNext d.visuals none = some 0 := by
      simp only [listNext]; rw [if_neg (by omega)]
    have s2 : listNext d.visuals (some 0) = some 1 := by
      simp only [listNext]; rw [if_pos (by omega)]
    simp only [wl_display_get_premultiplied_argb_visual, s1, s2]
    rfl
  · intro hl
    have s1 : listNext d.visuals none = some 0 := by
      simp only [listNext]; rw [if_neg (by omega)]
    have s2 : listNext d.visuals (some 0) = some 1 := by
      simp only [listNext]; rw [if_pos (by omega)]
    have s3 : listNext d.visuals (some 1) = some 2 := by
      simp only [listNext]; rw [if_pos (by omega)]
    simp only [wl_display_get_rgb_visual, s1, s2, s3]
    rfl
  · intro hl
    have s1 : listNext d.visuals none = none := by
      simp only [listNext]; rw [if_pos hl]
    simp only [wl_display_get_argb_visual, s1]
    rfl
  · intro hl
    have s1 : listNext d.visuals none = some 0 := by
      simp only [listNext]; rw [if_neg (by omega)]
    have s2 : listNext d.visuals (some 0) = none := by
      simp only [listNext]; rw [if_neg (by omega)]
    simp only [wl_display_get_rgb_visual, s1, s2]
    rfl

/-- Witness for C7: one unrelated global `⟨9, "x", 1⟩`, one visual
with id 5, query name `"q"`. -/
theorem c7_lookup_miss_witness :
    wl_display_get_object_id ⟨0, 0, [⟨9, [120], 1⟩], [5], false, [], []⟩
      [113] = 0 ∧
    (1 ≤ ([5] : List Nat).length →
      wl_display_get_argb_visual ⟨0, 0, [⟨9, [120], 1⟩], [5], false, [], []⟩
        = some (([5] : List Nat).getD 0 0)) ∧
    (2 ≤ ([5] : List Nat).length →
      wl_display_get_premultiplied_argb_visual
        ⟨0, 0, [⟨9, [120], 1⟩], [5], false, [], []⟩
        = some (([5] : List Nat).getD 1 0)) ∧
    (3 ≤ ([5] : List Nat).length →
      wl_display_get_rgb_visual ⟨0, 0, [⟨9, [120], 1⟩], [5], false, [], []⟩
        = some (([5] : List Nat).getD 2 0)) ∧
    (([5] : List Nat).length = 0 →
      wl_display_get_argb_visual ⟨0, 0, [⟨9, [120], 1⟩], [5], false, [], []⟩
        = none) ∧
    (([5] : List Nat).length = 1 →
      wl_display_get_rgb_visual ⟨0, 0, [⟨9, [120], 1⟩], [5], false, [], []⟩
        = some (([5] : List Nat).getD 0 0)) :=
  c7_lookup_miss ⟨0, 0, [⟨9, [120], 1⟩], [5], false, [], []⟩ [113] (by decide)

/-! ## C9 — display proxy id (corrected) -/

/-- C9 counterexample: the freshly created session's display proxy
does not carry object id 1 — `wl_display_create` assigns
`proxy.id = wl_display_get_object_id(display, "display")` while the
registry is still empty, so the proxy id is the not-found sentinel
`0`. -/
theorem c9_display_proxy_id_counterexample :
    (wl_display_create 16 []).proxyId = 0 ∧
    (wl_display_create 16 []).proxyId ≠ 1 := by decide

lemma handle_global_set_proxyId (d : WlDisplay) (p : List Nat) (x : Nat) :
    handle_global { d with proxyId := x } p
      = { handle_global d p with proxyId := x } := by
  simp only [handle_global, add_visual]
  split <;> rfl

/-- C9 (amended): for every freshly created session the display proxy
carries object id `0` — the not-found result of looking up
`"display"` in the still-empty registry — not the reserved id 1; and
the dispatch loop's routing of GLOBAL events tests the literal
constant 1, independent of the session's own proxy id (changing
`proxyId` commutes with `handle_event`). -/
theorem c9_display_proxy_id (seed : Nat) (initialIn : List Nat)
    (d : WlDisplay) (x object opcode size : Nat) :
    (wl_display_create seed initialIn).proxyId = 0 ∧
    handle_event { d with proxyId := x } object opcode size
      = { handle_event d object opcode size with proxyId := x } := by
  constructor
  · simp only [wl_display_create, wl_display_iterate]
    rw [iterateLoop_proxyId]
    rfl
  · simp only [handle_event]
    split <;> simp [handle_global_set_proxyId, handle_global_inData]
